import Mathlib

/-!
Verification of the reservation and electricity report scripts
(TaskA, TaskB, TaskD, TaskE, TaskF) against their specification.
The Python sources are shallowly embedded: strings are Lean strings,
Python int is Int, Python float values that carry exact decimal data
are modelled as rationals, dates are triples of naturals compared
lexicographically as datetime.date does, and console input is a list
of strings consumed in order.
-/

/-- A calendar date, as datetime.date: compared field-lexicographically. -/
structure Date where
  year : Nat
  month : Nat
  day : Nat
deriving DecidableEq

/-- Model of datetime.date ordering (lexicographic on year, month, day). -/
def dateLE (a b : Date) : Bool :=
  decide (a.year < b.year ∨ (a.year = b.year ∧
    (a.month < b.month ∨ (a.month = b.month ∧ a.day ≤ b.day))))

/-- Gregorian leap-year rule used by datetime. -/
def isLeap (y : Nat) : Bool :=
  y % 4 = 0 && (y % 100 ≠ 0 || y % 400 = 0)

/-- Number of days in a month, as datetime validates them. -/
def daysInMonth (y m : Nat) : Nat :=
  if m = 2 then (if isLeap y then 29 else 28)
  else if m = 4 ∨ m = 6 ∨ m = 9 ∨ m = 11 then 30
  else 31

/-- Days of the year elapsed before month m starts. -/
def daysBeforeMonth (y m : Nat) : Nat :=
  [0, 31, 59, 90, 120, 151, 181, 212, 243, 273, 304, 334].getD (m - 1) 0 +
    (if 2 < m && isLeap y then 1 else 0)

/-- Rata die day number: 0001-01-01 is day 1 (a Monday). -/
def rataDie (d : Date) : Nat :=
  (d.year - 1) * 365 + (d.year - 1) / 4 + (d.year - 1) / 400 - (d.year - 1) / 100 +
    daysBeforeMonth d.year d.month + d.day

/-- Model of datetime.date.weekday: Monday = 0 through Sunday = 6. -/
def pyWeekday (d : Date) : Nat := (rataDie d - 1) % 7

/-- A timestamp as produced by datetime.fromisoformat. -/
structure Timestamp where
  date : Date
  hour : Nat
  minute : Nat
  second : Nat
deriving DecidableEq

/-! ## TaskA and TaskB: the Paid line of the reservation printout -/

/-- Model of Python bool() applied to a string: truthy iff non-empty. -/
def pyBoolOfString (s : String) : Bool := decide (s ≠ "")

/-- TaskA main, line 70-72: paid = bool(parts[6]); prints Yes if truthy. -/
def taskA_paid_line (field6 : String) : String :=
  if pyBoolOfString field6 then "Paid: Yes" else "Paid: No"

/-- TaskB print_paid, line 118-119: is_paid = reservation[6] == "True". -/
def taskB_paid_line (field6 : String) : String :=
  if field6 = "True" then "Paid: Yes" else "Paid: No"

/-! ## Number formatting shared by TaskD, TaskE, TaskF -/

/-- Round a rational to the nearest integer, ties to even, matching how
CPython rounds the exact value of a float when formatting with .2f. -/
def roundHalfEven (q : ℚ) : ℤ :=
  if q - ⌊q⌋ < 1 / 2 then ⌊q⌋
  else if 1 / 2 < q - ⌊q⌋ then ⌊q⌋ + 1
  else if ⌊q⌋ % 2 = 0 then ⌊q⌋ else ⌊q⌋ + 1

/-- Two-digit zero-padded rendering of a value below 100. -/
def pad2 (n : Nat) : String := if n < 10 then "0" ++ toString n else toString n

/-- Model of the composite f-string idiom used in every script:
format the value with two decimals and replace the decimal point by a
comma. The only dot in a .2f rendering is the decimal point, so the
replace call swaps exactly that character; the model therefore emits
the comma directly. -/
def format_number (q : ℚ) : String :=
  let n := roundHalfEven (q * 100)
  if n < 0 then "-" ++ toString (n.natAbs / 100) ++ "," ++ pad2 (n.natAbs % 100)
  else toString (n.toNat / 100) ++ "," ++ pad2 (n.toNat % 100)

/-- Bounded-fuel binary logarithm: log2fuel fuel n is the floor base-2
logarithm of n whenever n is at most fuel (structural recursion on the
fuel so that it evaluates inside the kernel). -/
def log2fuel : Nat → Nat → Nat
  | 0, _ => 0
  | fuel + 1, n => if n ≥ 2 then log2fuel fuel (n / 2) + 1 else 0

/-- Floor base-2 logarithm of a natural number. -/
def natLog2 (n : Nat) : Nat := log2fuel n n

/-- Round-half-to-even of the fraction p / q (for q positive), written
with integer division so that it evaluates inside the kernel. -/
def roundHalfEvenInt (p q : Nat) : Nat :=
  if 2 * (p % q) < q then p / q
  else if q < 2 * (p % q) then p / q + 1
  else if (p / q) % 2 = 0 then p / q else p / q + 1

/-- The two-decimal rounding, in hundredths of a kWh, of the IEEE-754
binary64 double nearest to wh / 1000, for totals up to about 10^13 Wh.
The double produced by the Python division total / 1000 is obtained by
rounding wh / 1000 to 53 significant bits with ties to even; e2 is the
binary exponent of wh / 1000 shifted by 40 so it stays a natural
number, m is the rounded 53-bit significand scaled by 2 ^ (92 - e2),
and CPython .2f then rounds the exact value of that double to two
decimals, again with ties to even. -/
def whKwhCents (wh : Nat) : Nat :=
  if wh = 0 then 0
  else
    let e2 := natLog2 (wh * 2 ^ 40 / 1000)
    let m := roundHalfEvenInt (wh * 2 ^ (92 - e2)) 1000
    roundHalfEvenInt (100 * m) (2 ^ (92 - e2))

/-- TaskD main lines 154-168 and TaskE lines 76-77, 101-102: a Wh total
is divided by 1000 (producing the nearest binary double) and shown via
f-string .2f formatting with the decimal point replaced by a comma. -/
def shown_kwh (total_wh : ℤ) : String :=
  if total_wh < 0 then
    "-" ++ toString (whKwhCents total_wh.natAbs / 100) ++ "," ++
      pad2 (whKwhCents total_wh.natAbs % 100)
  else
    toString (whKwhCents total_wh.toNat / 100) ++ "," ++
      pad2 (whKwhCents total_wh.toNat % 100)

/-- Modelled from the spec: the value shown equals the total divided by
1000 rendered with exactly two decimal digits and a comma separator,
read as exact decimal arithmetic on the quotient. -/
def spec_shown_kwh (total_wh : ℤ) : String :=
  format_number ((total_wh : ℚ) / 1000)

/-! ## Finnish weekday names (TaskD and TaskE) -/

/-- TaskE lines 17-20: lookup table indexed by weekday(). -/
def WEEKDAY_NAMES : List String :=
  ["Maanantai", "Tiistai", "Keskiviikko", "Torstai",
   "Perjantai", "Lauantai", "Sunnuntai"]

/-- TaskD get_finnish_weekday lines 106-123: the if/elif chain on the
weekday number (the final else returns Sunnuntai). -/
def finnish_weekday_chain (weekday_number : Nat) : String :=
  if weekday_number = 0 then "Maanantai"
  else if weekday_number = 1 then "Tiistai"
  else if weekday_number = 2 then "Keskiviikko"
  else if weekday_number = 3 then "Torstai"
  else if weekday_number = 4 then "Perjantai"
  else if weekday_number = 5 then "Lauantai"
  else "Sunnuntai"

/-- TaskD get_finnish_weekday applied to a date. -/
def get_finnish_weekday (d : Date) : String :=
  finnish_weekday_chain (pyWeekday d)

/-- Modelled from the spec: the expected index-to-name mapping, 0=Monday
mapped to Maanantai through 6=Sunday mapped to Sunnuntai. -/
def spec_weekday_name (n : Nat) : String :=
  match n with
  | 0 => "Maanantai"
  | 1 => "Tiistai"
  | 2 => "Keskiviikko"
  | 3 => "Torstai"
  | 4 => "Perjantai"
  | 5 => "Lauantai"
  | _ => "Sunnuntai"

/-! ## TaskD and TaskE: hourly rows and daily totals -/

/-- One parsed hourly row of week CSV data (TaskD read_data lines 42-49,
TaskE read_data lines 31-39). -/
structure HourRow where
  timestamp : Timestamp
  consumption_v1 : Int
  consumption_v2 : Int
  consumption_v3 : Int
  production_v1 : Int
  production_v2 : Int
  production_v3 : Int
deriving DecidableEq

/-- Accumulated totals for one day (six channels). -/
structure DayTotals where
  consumption_v1 : Int
  consumption_v2 : Int
  consumption_v3 : Int
  production_v1 : Int
  production_v2 : Int
  production_v3 : Int
deriving DecidableEq

/-- The fresh all-zero totals created when a new day is first seen. -/
def zeroTotals : DayTotals := ⟨0, 0, 0, 0, 0, 0⟩

/-- Add one hourly row into a running daily total (the six additions of
TaskD lines 86-91 and TaskE lines 58-63). -/
def addHour (t : DayTotals) (row : HourRow) : DayTotals :=
  { consumption_v1 := t.consumption_v1 + row.consumption_v1
    consumption_v2 := t.consumption_v2 + row.consumption_v2
    consumption_v3 := t.consumption_v3 + row.consumption_v3
    production_v1 := t.production_v1 + row.production_v1
    production_v2 := t.production_v2 + row.production_v2
    production_v3 := t.production_v3 + row.production_v3 }

/-- One step of the daily-totals dict construction: insertion-ordered
association list, new key appended on first sight, existing key updated
in place. -/
def addRowToTotals (acc : List (Date × DayTotals)) (row : HourRow) :
    List (Date × DayTotals) :=
  let day := row.timestamp.date
  if acc.any (fun p => p.1 = day) then
    acc.map (fun p => if p.1 = day then (p.1, addHour p.2 row) else p)
  else
    acc ++ [(day, addHour zeroTotals row)]

/-- TaskD calculate_daily_totals lines 58-93. -/
def calculate_daily_totals (data : List HourRow) : List (Date × DayTotals) :=
  data.foldl addRowToTotals []

/-- TaskE summarize_week lines 44-64 (same accumulation, written with
augmented assignment in the source). -/
def summarize_week (data : List HourRow) : List (Date × DayTotals) :=
  data.foldl addRowToTotals []

/-- Dictionary lookup on the insertion-ordered association list. -/
def lookupTotals (acc : List (Date × DayTotals)) (d : Date) : Option DayTotals :=
  (acc.find? (fun p => p.1 = d)).map Prod.snd

/-- The list of day keys in insertion order (dict keys). -/
def totalsKeys (acc : List (Date × DayTotals)) : List Date := acc.map Prod.fst

/-- TaskD main lines 145-150: all_dates = list(keys); all_dates.sort(). -/
def report_days_taskD (data : List HourRow) : List Date :=
  (totalsKeys (calculate_daily_totals data)).mergeSort dateLE

/-- TaskE write_report line 92: for day in sorted(summary.keys()). -/
def report_days_taskE (data : List HourRow) : List Date :=
  (totalsKeys (summarize_week data)).mergeSort dateLE

/-! ## TaskF: measurements, filters, summary lines -/

/-- TaskF Measurement dataclass lines 13-21; the numeric fields are
exact decimals from the CSV, modelled as rationals. -/
structure Measurement where
  timestamp : Timestamp
  day : Date
  consumption_kwh : ℚ
  production_kwh : ℚ
  temperature_c : ℚ

/-- TaskF create_daily_report line 85: the chained comparison
start_day <= row.day <= end_day selects the rows kept. -/
def create_daily_report_selection (data : List Measurement)
    (start_day end_day : Date) : List Measurement :=
  data.filter (fun row => dateLE start_day row.day && dateLE row.day end_day)

/-- TaskF create_monthly_report line 93: rows whose month equals the
chosen month. -/
def create_monthly_report_selection (data : List Measurement)
    (month : Nat) : List Measurement :=
  data.filter (fun row => row.day.month = month)

/-- TaskF build_summary_lines lines 219-234. -/
def build_summary_lines (rows : List Measurement) : List String :=
  if rows.isEmpty then ["No data for the selected period."]
  else
    let total_consumption := (rows.map Measurement.consumption_kwh).sum
    let total_production := (rows.map Measurement.production_kwh).sum
    let avg_temperature := (rows.map Measurement.temperature_c).sum / (rows.length : ℚ)
    ["- Total consumption: " ++ format_number total_consumption ++ " kWh",
     "- Total production: " ++ format_number total_production ++ " kWh",
     "- Average temperature: " ++ format_number avg_temperature ++ " Â°C"]

/-! ## TaskF: interactive menu state machine -/

/-- The loop states of TaskF main lines 135-151 together with
handle_post_report_menu lines 237-249. -/
inductive MenuState where
  | MainMenu
  | PostReportMenu
  | Exit
deriving DecidableEq

/-- One transition of the TaskF loop on a menu selection: main menu
choices 1-3 run a report and land in the post-report menu, 4 exits,
anything else re-prompts; post-report choice 1 writes the file and
re-prompts, 2 returns to the main menu, 3 exits, anything else
re-prompts. -/
def menu_step (s : MenuState) (choice : String) : MenuState :=
  match s with
  | .MainMenu =>
    if choice = "1" ∨ choice = "2" ∨ choice = "3" then .PostReportMenu
    else if choice = "4" then .Exit
    else .MainMenu
  | .PostReportMenu =>
    if choice = "1" then .PostReportMenu
    else if choice = "2" then .MainMenu
    else if choice = "3" then .Exit
    else .PostReportMenu
  | .Exit => .Exit

/-! ## String primitives modelling the Python ones -/

/-- Model of str.split on a one-character separator. -/
def splitChar (sep : Char) : List Char → List (List Char)
  | [] => [[]]
  | c :: cs =>
    match splitChar sep cs with
    | [] => if c = sep then [[], []] else [[c]]
    | h :: t => if c = sep then [] :: h :: t else (c :: h) :: t

/-- Python line.split(sep) for a single-character separator. -/
def pySplit (s : String) (sep : Char) : List String :=
  (splitChar sep s.data).map String.mk

/-- The ASCII whitespace characters of Python str.isspace: space, tab,
newline, vertical tab, form feed, carriage return, and the separator
control characters 28 to 31. -/
def pyIsSpace (c : Char) : Bool :=
  c = ' ' || c = '\t' || c = '\n' || c = '\r' ||
    c.toNat = 11 || c.toNat = 12 || (28 ≤ c.toNat && c.toNat ≤ 31)

/-- Python str.strip() on ASCII text: whitespace removed from both
ends (CPython additionally strips non-ASCII Unicode whitespace, which
is outside the modelled character set). -/
def pyStrip (s : String) : String :=
  String.mk (((s.data.dropWhile pyIsSpace).reverse.dropWhile
    pyIsSpace).reverse)

/-- True when every character of the string is ASCII; the failure
statements about the interactive prompts are scoped to such entries. -/
def asciiOnly (s : String) : Bool := s.data.all (fun c => c.toNat < 128)

/-- Value of a run of decimal digits. -/
def digitsToNat (l : List Char) : Nat :=
  l.foldl (fun acc c => acc * 10 + (c.toNat - 48)) 0

/-- Parse a non-empty all-digit string as a natural number. -/
def parseNat (s : String) : Option Nat :=
  if s.data.all Char.isDigit && !s.data.isEmpty then some (digitsToNat s.data)
  else none

/-- The digit part of a Python integer literal: ASCII decimal digits
with PEP 515 underscore grouping, every underscore sitting between two
digits (no leading, trailing or doubled underscores). -/
def pyDigits : List Char → Bool
  | [] => false
  | [c] => c.isDigit
  | c :: '_' :: rest => c.isDigit && pyDigits rest
  | c :: rest => c.isDigit && pyDigits rest

/-- Model of Python int(str) on ASCII text: surrounding whitespace
allowed, optional sign, then ASCII decimal digits with underscore
grouping; anything else raises, modelled as none. CPython additionally
accepts non-ASCII Unicode decimal digits and whitespace, outside the
modelled character set. -/
def pyInt (s : String) : Option Int :=
  match (pyStrip s).data with
  | '-' :: rest =>
    if pyDigits rest then
      some (-(digitsToNat (rest.filter (fun c => c ≠ '_')) : Int))
    else none
  | '+' :: rest =>
    if pyDigits rest then
      some ((digitsToNat (rest.filter (fun c => c ≠ '_')) : Int))
    else none
  | t =>
    if pyDigits t then
      some ((digitsToNat (t.filter (fun c => c ≠ '_')) : Int))
    else none

/-- Model of datetime.fromisoformat on the forms the CSV fixtures use:
YYYY-MM-DD optionally followed by a separator and HH:MM or HH:MM:SS,
with calendar validation; a malformed text raises, modelled as none. -/
def fromisoformat (s : String) : Option Timestamp :=
  match s.data with
  | y1 :: y2 :: y3 :: y4 :: '-' :: m1 :: m2 :: '-' :: d1 :: d2 :: rest =>
    if [y1, y2, y3, y4, m1, m2, d1, d2].all Char.isDigit then
      let y := digitsToNat [y1, y2, y3, y4]
      let m := digitsToNat [m1, m2]
      let d := digitsToNat [d1, d2]
      if 1 ≤ y ∧ 1 ≤ m ∧ m ≤ 12 ∧ 1 ≤ d ∧ d ≤ daysInMonth y m then
        match rest with
        | [] => some ⟨⟨y, m, d⟩, 0, 0, 0⟩
        | sep :: h1 :: h2 :: ':' :: n1 :: n2 :: rest2 =>
          if (sep = 'T' ∨ sep = ' ') ∧ [h1, h2, n1, n2].all Char.isDigit then
            let hh := digitsToNat [h1, h2]
            let mm := digitsToNat [n1, n2]
            if hh < 24 ∧ mm < 60 then
              match rest2 with
              | [] => some ⟨⟨y, m, d⟩, hh, mm, 0⟩
              | ':' :: s1 :: s2 :: [] =>
                if [s1, s2].all Char.isDigit ∧ digitsToNat [s1, s2] < 60 then
                  some ⟨⟨y, m, d⟩, hh, mm, digitsToNat [s1, s2]⟩
                else none
              | _ => none
            else none
          else none
        | _ => none
      else none
    else none
  | _ => none

/-- Field conversions of one CSV row, TaskD lines 42-49 and TaskE lines
31-39: ISO timestamp in column 0, six integers in columns 1-6. -/
def parse_hour_row (parts : List String) : Option HourRow := do
  let ts ← fromisoformat (parts.getD 0 "")
  let c1 ← pyInt (parts.getD 1 "")
  let c2 ← pyInt (parts.getD 2 "")
  let c3 ← pyInt (parts.getD 3 "")
  let p1 ← pyInt (parts.getD 4 "")
  let p2 ← pyInt (parts.getD 5 "")
  let p3 ← pyInt (parts.getD 6 "")
  pure ⟨ts, c1, c2, c3, p1, p2, p3⟩

/-- TaskD read_data lines 35-52 on the data lines after the header:
the line is stripped and split on semicolons, rows with fewer than 7
columns are skipped, others are parsed (a parse failure raises and is
modelled as none for the whole read). -/
def taskD_read_data : List String → Option (List HourRow)
  | [] => some []
  | line :: rest =>
    if (pySplit (pyStrip line) ';').length ≥ 7 then do
      let row ← parse_hour_row (pySplit (pyStrip line) ';')
      let tail ← taskD_read_data rest
      pure (row :: tail)
    else taskD_read_data rest

/-- TaskE read_data lines 29-40: csv.reader with semicolon delimiter
splits each line on semicolons (the fixtures carry no quoting), short
rows are skipped, others parsed. -/
def taskE_read_data : List String → Option (List HourRow)
  | [] => some []
  | line :: rest =>
    if (pySplit line ';').length ≥ 7 then do
      let row ← parse_hour_row (pySplit line ';')
      let tail ← taskE_read_data rest
      pure (row :: tail)
    else taskE_read_data rest

/-! ## TaskF interactive prompts -/

/-- Model of datetime.strptime(raw, dd.mm.yyyy pattern).date() on
ASCII text: split on dots into exactly three all-digit fields, where
the day and month directives match one or two digits, the year
directive matches exactly four digits, the whole string must be
consumed, and the triple must form a valid calendar date; failure
raises ValueError, modelled as none. -/
def parse_ddmmyyyy (s : String) : Option Date :=
  match pySplit s '.' with
  | [ds, ms, ys] =>
    if (1 ≤ ds.length ∧ ds.length ≤ 2) ∧ (1 ≤ ms.length ∧ ms.length ≤ 2) ∧
        ys.length = 4 then
      match parseNat ds, parseNat ms, parseNat ys with
      | some d, some m, some y =>
        if 1 ≤ y ∧ 1 ≤ m ∧ m ≤ 12 ∧ 1 ≤ d ∧ d ≤ daysInMonth y m then
          some ⟨y, m, d⟩
        else none
      | _, _, _ => none
    else none
  | _ => none

/-- TaskF prompt_date lines 178-186 over a finite console input list:
each entry is stripped and parsed as dd.mm.yyyy; an invalid entry
prints a message and the loop reads the next entry. -/
def prompt_date : List String → Option (Date × List String)
  | [] => none
  | raw :: rest =>
    match parse_ddmmyyyy (pyStrip raw) with
    | some d => some (d, rest)
    | none => prompt_date rest

/-- TaskF prompt_month lines 189-201 over a finite console input list:
each entry is stripped and parsed with int(); a parse failure or a
value outside 1..12 re-prompts on the next entry. -/
def prompt_month : List String → Option (Int × List String)
  | [] => none
  | raw :: rest =>
    match pyInt (pyStrip raw) with
    | none => prompt_month rest
    | some m => if 1 ≤ m ∧ m ≤ 12 then some (m, rest) else prompt_month rest

/-! ## Concrete fixtures used by the witness statements -/

/-- A data line with all seven columns well formed. -/
def lineGood : String := "2025-10-13T10:00;1;2;3;4;5;6"

/-- A data line with fewer than seven columns. -/
def lineShort : String := "2025-10-13T10:00;1;2"

/-- The row lineGood parses to. -/
def rowGood : HourRow := ⟨⟨⟨2025, 10, 13⟩, 10, 0, 0⟩, 1, 2, 3, 4, 5, 6⟩

/-- A second fixture row on the following day. -/
def rowGood2 : HourRow := ⟨⟨⟨2025, 10, 14⟩, 11, 0, 0⟩, 7, 8, 9, 10, 11, 12⟩

/-- A fixture measurement for the TaskF witnesses. -/
def measW : Measurement :=
  ⟨⟨⟨2025, 10, 13⟩, 10, 0, 0⟩, ⟨2025, 10, 13⟩, 2, 3, 21⟩

/-! ## Theorems -/

/-- C1: the claim says both TaskA and TaskB print the line Paid: Yes
exactly when field 6 is the string True. TaskB does; TaskA computes
bool(parts[6]), which is true for every non-empty string, so on the
field value False the two scripts disagree and TaskA prints Paid: Yes
where the claim requires Paid: No. -/
theorem C1_paid_line_taskA_divergence :
    taskA_paid_line "False" = "Paid: Yes" ∧ taskB_paid_line "False" = "Paid: No" := by
  constructor <;> decide

/-- C2: for dates with start on or before end, the TaskF daily range
selection keeps exactly the rows with start <= day <= end (both
boundaries included), and the monthly selection keeps exactly the rows
whose month equals the chosen month. -/
theorem C2_taskF_filters_inclusive (data : List Measurement) (s e : Date)
    (_h : dateLE s e = true) :
    (∀ row, row ∈ create_daily_report_selection data s e ↔
      row ∈ data ∧ dateLE s row.day = true ∧ dateLE row.day e = true) ∧
    (∀ m row, row ∈ create_monthly_report_selection data m ↔
      row ∈ data ∧ row.day.month = m) := by
  constructor
  · intro row
    simp [create_daily_report_selection, List.mem_filter, Bool.and_eq_true]
  · intro m row
    simp [create_monthly_report_selection, List.mem_filter]

/-- Witness for C2 at a concrete one-row selection. -/
theorem C2_taskF_filters_inclusive_witness :
    dateLE ⟨2025, 10, 1⟩ ⟨2025, 10, 31⟩ = true ∧
    (measW ∈ create_daily_report_selection [measW] ⟨2025, 10, 1⟩ ⟨2025, 10, 31⟩ ↔
      measW ∈ [measW] ∧ dateLE ⟨2025, 10, 1⟩ measW.day = true ∧
        dateLE measW.day ⟨2025, 10, 31⟩ = true) :=
  ⟨by decide,
   (C2_taskF_filters_inclusive [measW] ⟨2025, 10, 1⟩ ⟨2025, 10, 31⟩ (by decide)).1 measW⟩

/-- Rounding an integer-valued rational is the identity. -/
theorem roundHalfEven_intCast (z : ℤ) : roundHalfEven (z : ℚ) = z := by
  unfold roundHalfEven
  norm_num [Int.floor_intCast]

/-- The half-even rounding of a rational differs from it by at most one
half. -/
theorem abs_roundHalfEven_sub (y : ℚ) : |(roundHalfEven y : ℚ) - y| ≤ 1 / 2 := by
  have h0 : (⌊y⌋ : ℚ) ≤ y := Int.floor_le y
  have h1 : y < ⌊y⌋ + 1 := Int.lt_floor_add_one y
  unfold roundHalfEven
  split_ifs with ha hb hc
  · rw [abs_sub_comm, abs_of_nonneg (by linarith)]
    linarith
  · rw [show ((↑(⌊y⌋ + 1) : ℚ)) - y = 1 - (y - ⌊y⌋) by push_cast; ring,
      abs_of_nonneg (by linarith)]
    linarith
  · rw [abs_sub_comm, abs_of_nonneg (by linarith)]
    linarith
  · rw [show ((↑(⌊y⌋ + 1) : ℚ)) - y = 1 - (y - ⌊y⌋) by push_cast; ring,
      abs_of_nonneg (by linarith)]
    linarith

/-- Any rational strictly within one half of an integer rounds to that
integer. -/
theorem roundHalfEven_eq_of_abs_lt (y : ℚ) (k : ℤ) (h : |y - k| < 1 / 2) :
    roundHalfEven y = k := by
  have hlow : (k : ℚ) - 1 / 2 < y := by
    have h2 := abs_lt.mp h
    linarith [h2.1]
  have hhigh : y < (k : ℚ) + 1 / 2 := by
    have h2 := abs_lt.mp h
    linarith [h2.2]
  by_cases hy : (k : ℚ) ≤ y
  · have hf : ⌊y⌋ = k := by
      rw [Int.floor_eq_iff]
      exact ⟨hy, by linarith⟩
    unfold roundHalfEven
    rw [hf, if_pos (by linarith)]
  · push_neg at hy
    have hf : ⌊y⌋ = k - 1 := by
      rw [Int.floor_eq_iff]
      constructor
      · push_cast
        linarith
      · push_cast
        linarith
    unfold roundHalfEven
    rw [hf, if_neg (by push_cast; linarith), if_pos (by push_cast; linarith)]
    omega

/-- log2fuel computes the floor binary logarithm whenever the fuel is
sufficient. -/
theorem log2fuel_spec : ∀ (fuel n : Nat), 1 ≤ n → n ≤ fuel →
    2 ^ log2fuel fuel n ≤ n ∧ n < 2 ^ (log2fuel fuel n + 1) := by
  intro fuel
  induction fuel with
  | zero =>
    intro n h1 h2
    exfalso
    omega
  | succ fuel ih =>
    intro n h1 h2
    simp only [log2fuel]
    by_cases h : n ≥ 2
    · rw [if_pos h]
      obtain ⟨ha, hb⟩ := ih (n / 2) (by omega) (by omega)
      have e1 : (2 : ℕ) ^ (log2fuel fuel (n / 2) + 1)
          = 2 * 2 ^ log2fuel fuel (n / 2) := by ring
      have e2 : (2 : ℕ) ^ (log2fuel fuel (n / 2) + 1 + 1)
          = 2 * 2 ^ (log2fuel fuel (n / 2) + 1) := by ring
      omega
    · rw [if_neg h]
      have hn : n = 1 := by omega
      subst hn
      norm_num

/-- The floor binary logarithm brackets its argument. -/
theorem natLog2_spec (n : Nat) (h : 1 ≤ n) :
    2 ^ natLog2 n ≤ n ∧ n < 2 ^ (natLog2 n + 1) :=
  log2fuel_spec n n h (le_refl n)

/-- The integer floor of a natural division agrees with Nat division. -/
theorem int_floor_nat_div (p q : Nat) (hq : 0 < q) :
    ⌊(p : ℚ) / q⌋ = (p / q : ℕ) := by
  have hq0 : (0 : ℚ) < q := by exact_mod_cast hq
  rw [Int.floor_eq_iff]
  constructor
  · rw [le_div_iff hq0]
    push_cast
    exact_mod_cast Nat.div_mul_le_self p q
  · rw [div_lt_iff hq0]
    have h1 := Nat.div_add_mod p q
    have h2 := Nat.mod_lt p hq
    have h3 : p < (p / q + 1) * q := by
      calc p = q * (p / q) + p % q := h1.symm
        _ < q * (p / q) + q := by omega
        _ = (p / q + 1) * q := by ring
    push_cast
    exact_mod_cast h3

/-- The Nat-level half-even rounding agrees with the rational one. -/
theorem roundHalfEvenInt_eq (p q : Nat) (hq : 0 < q) :
    (roundHalfEvenInt p q : ℤ) = roundHalfEven ((p : ℚ) / q) := by
  have hq0 : (0 : ℚ) < q := by exact_mod_cast hq
  have hfl := int_floor_nat_div p q hq
  have hfrac : (p : ℚ) / q - ((p / q : ℕ) : ℚ) = ((p % q : ℕ) : ℚ) / q := by
    have h1 : (q : ℚ) * ((p / q : ℕ) : ℚ) + ((p % q : ℕ) : ℚ) = (p : ℚ) := by
      exact_mod_cast Nat.div_add_mod p q
    field_simp
    linarith
  have hc1 : (((p % q : ℕ) : ℚ) / q < 1 / 2) ↔ (2 * (p % q) < q) := by
    rw [div_lt_div_iff hq0 (by norm_num)]
    norm_cast
    omega
  have hc2 : ((1 : ℚ) / 2 < ((p % q : ℕ) : ℚ) / q) ↔ (q < 2 * (p % q)) := by
    rw [div_lt_div_iff (by norm_num) hq0]
    norm_cast
    omega
  have hc3 : ((((p / q : ℕ) : ℤ)) % 2 = 0) ↔ ((p / q) % 2 = 0) := by omega
  unfold roundHalfEven roundHalfEvenInt
  rw [hfl]
  simp only [Int.cast_natCast]
  rw [hfrac]
  simp only [hc1, hc2, hc3]
  split_ifs <;> push_cast <;> ring

/-- Composing the 53-bit quantisation with the two-decimal rounding is
exact on multiples of 10 Wh: the quantisation error is scaled far below
the half-cent threshold of the final rounding. -/
theorem two_stage_round (a b E : ℕ) (_hb : b < 100) (hE : 7 ≤ E) :
    roundHalfEvenInt
        (100 * roundHalfEvenInt ((1000 * a + 10 * b) * 2 ^ E) 1000) (2 ^ E)
      = 100 * a + b := by
  have hEpos : (0 : ℕ) < 2 ^ E := pow_pos (by norm_num) E
  have hm := roundHalfEvenInt_eq ((1000 * a + 10 * b) * 2 ^ E) 1000 (by norm_num)
  have hmclose : |((roundHalfEvenInt ((1000 * a + 10 * b) * 2 ^ E) 1000 : ℕ) : ℚ)
      - (((1000 * a + 10 * b) * 2 ^ E : ℕ) : ℚ) / ((1000 : ℕ) : ℚ)| ≤ 1 / 2 := by
    have h0 := abs_roundHalfEven_sub
      ((((1000 * a + 10 * b) * 2 ^ E : ℕ) : ℚ) / ((1000 : ℕ) : ℚ))
    rw [← hm] at h0
    exact_mod_cast h0
  have hkey : roundHalfEven
      (((100 * roundHalfEvenInt ((1000 * a + 10 * b) * 2 ^ E) 1000 : ℕ) : ℚ)
        / ((2 ^ E : ℕ) : ℚ)) = ((100 * a + b : ℕ) : ℤ) := by
    apply roundHalfEven_eq_of_abs_lt
    have hpowpos : (0 : ℚ) < ((2 ^ E : ℕ) : ℚ) := by exact_mod_cast hEpos
    have hid : ((100 * roundHalfEvenInt ((1000 * a + 10 * b) * 2 ^ E) 1000 : ℕ) : ℚ)
          / ((2 ^ E : ℕ) : ℚ) - (((100 * a + b : ℕ) : ℤ) : ℚ)
        = (100 / ((2 ^ E : ℕ) : ℚ))
          * (((roundHalfEvenInt ((1000 * a + 10 * b) * 2 ^ E) 1000 : ℕ) : ℚ)
            - (((1000 * a + 10 * b) * 2 ^ E : ℕ) : ℚ) / ((1000 : ℕ) : ℚ)) := by
      push_cast
      field_simp
      ring
    rw [hid, abs_mul, abs_of_pos (by positivity)]
    have hEb : (128 : ℚ) ≤ ((2 ^ E : ℕ) : ℚ) := by
      have h7 : (2 : ℕ) ^ 7 ≤ 2 ^ E := Nat.pow_le_pow_right (by norm_num) hE
      have h8 : (128 : ℕ) ≤ 2 ^ E := by
        calc (128 : ℕ) = 2 ^ 7 := by norm_num
          _ ≤ 2 ^ E := h7
      exact_mod_cast h8
    calc 100 / ((2 ^ E : ℕ) : ℚ)
          * |((roundHalfEvenInt ((1000 * a + 10 * b) * 2 ^ E) 1000 : ℕ) : ℚ)
            - (((1000 * a + 10 * b) * 2 ^ E : ℕ) : ℚ) / ((1000 : ℕ) : ℚ)|
        ≤ 100 / ((2 ^ E : ℕ) : ℚ) * (1 / 2) := by
          apply mul_le_mul_of_nonneg_left hmclose (by positivity)
      _ ≤ 100 / 128 * (1 / 2) := by
          apply mul_le_mul_of_nonneg_right _ (by norm_num)
          apply div_le_div_of_nonneg_left (by norm_num) (by norm_num) hEb
      _ < 1 / 2 := by norm_num
  have h := roundHalfEvenInt_eq
    (100 * roundHalfEvenInt ((1000 * a + 10 * b) * 2 ^ E) 1000) (2 ^ E) hEpos
  rw [hkey] at h
  exact_mod_cast h

/-- The whole integer float pipeline is exact on multiples of 10 Wh up
to 10^13. -/
theorem whKwhCents_exact (a b : ℕ) (hb : b < 100) (hpos : 0 < a + b)
    (hbound : 1000 * a + 10 * b ≤ 10 ^ 13) :
    whKwhCents (1000 * a + 10 * b) = 100 * a + b := by
  have hNne : 1000 * a + 10 * b ≠ 0 := by omega
  have hN10 : 10 ≤ 1000 * a + 10 * b := by omega
  have harg1 : 1 ≤ (1000 * a + 10 * b) * 2 ^ 40 / 1000 := by
    have h1 : 10 * 2 ^ 40 ≤ (1000 * a + 10 * b) * 2 ^ 40 :=
      Nat.mul_le_mul_right _ hN10
    have h2 : (1000 : ℕ) ≤ (1000 * a + 10 * b) * 2 ^ 40 := by
      calc (1000 : ℕ) ≤ 10 * 2 ^ 40 := by norm_num
        _ ≤ (1000 * a + 10 * b) * 2 ^ 40 := h1
    omega
  have hargUB : (1000 * a + 10 * b) * 2 ^ 40 / 1000 < 2 ^ 74 := by
    have h1 : (1000 * a + 10 * b) * 2 ^ 40 ≤ 10 ^ 13 * 2 ^ 40 :=
      Nat.mul_le_mul_right _ hbound
    have h2 : (10 : ℕ) ^ 13 * 2 ^ 40 < 2 ^ 74 * 1000 := by norm_num
    omega
  have he2 : natLog2 ((1000 * a + 10 * b) * 2 ^ 40 / 1000) ≤ 73 := by
    obtain ⟨hlo, _⟩ := natLog2_spec _ harg1
    by_contra hcon
    push_neg at hcon
    have h1 : (2 : ℕ) ^ 74 ≤ 2 ^ natLog2 ((1000 * a + 10 * b) * 2 ^ 40 / 1000) :=
      Nat.pow_le_pow_right (by norm_num) hcon
    omega
  unfold whKwhCents
  rw [if_neg hNne]
  exact two_stage_round a b
    (92 - natLog2 ((1000 * a + 10 * b) * 2 ^ 40 / 1000)) hb (by omega)

/-- C4 (amended): every integer watt-hour total that is a whole multiple
of 10 and at most 10^13 is shown as its value divided by 1000 with
exactly two decimal digits and a comma separator; totals that are not
multiples of 10 are shown as the two-decimal rendering of the binary
double nearest total / 1000, which can differ from exact decimal
rounding. -/
theorem C4_wh_to_kwh_display (a b : ℕ) (hb : b < 100)
    (hbound : 1000 * a + 10 * b ≤ 10 ^ 13) :
    shown_kwh (1000 * a + 10 * b) = toString a ++ "," ++ pad2 b := by
  by_cases hzero : a = 0 ∧ b = 0
  · obtain ⟨ha, hb0⟩ := hzero
    subst ha
    subst hb0
    decide
  · unfold shown_kwh
    rw [if_neg (by omega)]
    rw [show (1000 * (a : ℤ) + 10 * (b : ℤ)) = ((1000 * a + 10 * b : ℕ) : ℤ)
      from by push_cast; ring]
    rw [Int.toNat_ofNat]
    rw [whKwhCents_exact a b hb (by omega) hbound]
    rw [show (100 * a + b) / 100 = a from by omega,
      show (100 * a + b) % 100 = b from by omega]

/-- Counterexample for C4 as stated: at the total 2675 Wh the program
prints 2,67, because the binary double nearest 2.675 lies just below
it, while the exact two-decimal rendering of 2675 / 1000 claimed by the
spec is 2,68. -/
theorem C4_wh_to_kwh_display_counterexample :
    shown_kwh 2675 = "2,67" ∧ spec_shown_kwh 2675 = "2,68" ∧
    shown_kwh 2675 ≠ spec_shown_kwh 2675 := by
  have h1 : shown_kwh 2675 = "2,67" := by decide
  have h2 : spec_shown_kwh 2675 = "2,68" := by
    unfold spec_shown_kwh format_number
    have harg : ((2675 : ℤ) : ℚ) / 1000 * 100 = 535 / 2 := by norm_num
    rw [harg]
    have hf : ⌊(535 : ℚ) / 2⌋ = 267 := by
      rw [Int.floor_eq_iff]
      norm_num
    have hr : roundHalfEven ((535 : ℚ) / 2) = 268 := by
      unfold roundHalfEven
      rw [hf, if_neg (by norm_num), if_neg (by norm_num), if_neg (by norm_num)]
      norm_num
    rw [hr]
    decide
  refine ⟨h1, h2, ?_⟩
  rw [h1, h2]
  decide

/-- Witness for C4: 39900 Wh renders as 39,90. -/
theorem C4_wh_to_kwh_display_witness : shown_kwh 39900 = "39,90" := by
  have h := C4_wh_to_kwh_display 39 90 (by norm_num) (by norm_num)
  norm_num at h
  rw [h]
  decide

/-- C5: the TaskD if/elif chain and the TaskE lookup table both realise
the expected mapping 0=Maanantai through 6=Sunnuntai on all seven
weekday indices, and on every date the two implementations agree. -/
theorem C5_weekday_names :
    (∀ n, n < 7 → finnish_weekday_chain n = spec_weekday_name n ∧
      WEEKDAY_NAMES.getD n "" = spec_weekday_name n) ∧
    (∀ d : Date, get_finnish_weekday d = WEEKDAY_NAMES.getD (pyWeekday d) "") := by
  constructor
  · intro n hn
    interval_cases n <;> exact ⟨rfl, rfl⟩
  · intro d
    have h : pyWeekday d < 7 := by
      unfold pyWeekday
      exact Nat.mod_lt _ (by norm_num)
    unfold get_finnish_weekday
    revert h
    generalize pyWeekday d = k
    intro h
    interval_cases k <;> rfl

/-- Witness for C5 at index 4 and at the fixture date 2025-10-31, a
Friday. -/
theorem C5_weekday_names_witness :
    (finnish_weekday_chain 4 = spec_weekday_name 4 ∧
      WEEKDAY_NAMES.getD 4 "" = spec_weekday_name 4) ∧
    get_finnish_weekday ⟨2025, 10, 31⟩ = "Perjantai" :=
  ⟨C5_weekday_names.1 4 (by norm_num), by decide⟩

/-- C8: in the TaskF loop, the main menu reaches Exit exactly on the
choice 4, the post-report menu exactly on 3, and every unrecognized
choice leaves the machine in the same menu state. -/
theorem C8_menu_state_machine (choice : String) :
    (menu_step .MainMenu choice = .Exit ↔ choice = "4") ∧
    (menu_step .PostReportMenu choice = .Exit ↔ choice = "3") ∧
    (choice ≠ "1" → choice ≠ "2" → choice ≠ "3" → choice ≠ "4" →
      menu_step .MainMenu choice = .MainMenu) ∧
    (choice ≠ "1" → choice ≠ "2" → choice ≠ "3" →
      menu_step .PostReportMenu choice = .PostReportMenu) := by
  by_cases h1 : choice = "1" <;> by_cases h2 : choice = "2" <;>
    by_cases h3 : choice = "3" <;> by_cases h4 : choice = "4" <;>
    simp_all [menu_step]

/-- Witness for C8: an unrecognized choice stays at the main menu and
choice 4 exits. -/
theorem C8_menu_state_machine_witness :
    menu_step .MainMenu "x" = .MainMenu ∧ menu_step .MainMenu "4" = .Exit :=
  ⟨(C8_menu_state_machine "x").2.2.1 (by decide) (by decide) (by decide) (by decide),
   (C8_menu_state_machine "4").1.mpr rfl⟩

/-- C10: on an empty selection TaskF returns exactly the no-data line
and never reaches the average-temperature division; on a non-empty
selection it returns the three summary lines, with the division
denominator equal to the positive row count. -/
theorem C10_summary_lines (rows : List Measurement) :
    (rows = [] → build_summary_lines rows = ["No data for the selected period."]) ∧
    (rows ≠ [] → 0 < rows.length ∧
      build_summary_lines rows =
        ["- Total consumption: " ++
            format_number ((rows.map Measurement.consumption_kwh).sum) ++ " kWh",
         "- Total production: " ++
            format_number ((rows.map Measurement.production_kwh).sum) ++ " kWh",
         "- Average temperature: " ++
            format_number ((rows.map Measurement.temperature_c).sum / (rows.length : ℚ)) ++
            " Â°C"]) := by
  constructor
  · intro h
    subst h
    rfl
  · intro h
    refine ⟨List.length_pos.mpr h, ?_⟩
    unfold build_summary_lines
    rw [if_neg (by simp [List.isEmpty_iff, h])]

/-- Witness for C10: the empty selection yields the single no-data
line. -/
theorem C10_summary_lines_witness :
    build_summary_lines [] = ["No data for the selected period."] :=
  (C10_summary_lines []).1 rfl

/-- Lookup on an empty association list. -/
theorem lookupTotals_nil (d : Date) : lookupTotals [] d = none := rfl

/-- Lookup steps over a cons cell by comparing its key. -/
theorem lookupTotals_cons (p : Date × DayTotals) (l : List (Date × DayTotals))
    (d : Date) :
    lookupTotals (p :: l) d = if p.1 = d then some p.2 else lookupTotals l d := by
  by_cases h : p.1 = d <;> simp [lookupTotals, List.find?_cons, h]

/-- Updating every entry holding the touched day changes the lookup at
that day only. -/
theorem lookupTotals_map_upd (acc : List (Date × DayTotals)) (row : HourRow)
    (d : Date) :
    lookupTotals
        (acc.map (fun p =>
          if p.1 = row.timestamp.date then (p.1, addHour p.2 row) else p)) d =
      if row.timestamp.date = d
      then (lookupTotals acc d).map (fun t => addHour t row)
      else lookupTotals acc d := by
  induction acc with
  | nil => by_cases h : row.timestamp.date = d <;> simp [lookupTotals, h]
  | cons p acc ih =>
    by_cases hpr : p.1 = row.timestamp.date
    · simp only [List.map_cons, if_pos hpr]
      rw [lookupTotals_cons, lookupTotals_cons]
      by_cases hpd : p.1 = d
      · have hd : row.timestamp.date = d := hpr.symm.trans hpd
        simp [hpd, hd]
      · have hd : row.timestamp.date ≠ d := fun h => hpd (hpr.trans h)
        simp [hpd, hd, ih]
    · simp only [List.map_cons, if_neg hpr]
      rw [lookupTotals_cons, lookupTotals_cons]
      by_cases hpd : p.1 = d
      · have hd : row.timestamp.date ≠ d := fun h => hpr (by rw [hpd, h])
        simp [hpd, hd]
      · simp [hpd, ih]

/-- The membership test of the dict model agrees with lookup success. -/
theorem any_eq_lookup_isSome (acc : List (Date × DayTotals)) (x : Date) :
    acc.any (fun p => p.1 = x) = (lookupTotals acc x).isSome := by
  induction acc with
  | nil => rfl
  | cons p acc ih =>
    rw [lookupTotals_cons]
    by_cases h : p.1 = x <;> simp [h, ih]

/-- Lookup distributes over appending a single entry. -/
theorem lookupTotals_append_single (acc : List (Date × DayTotals))
    (q : Date × DayTotals) (d : Date) :
    lookupTotals (acc ++ [q]) d =
      (lookupTotals acc d).or (if q.1 = d then some q.2 else none) := by
  induction acc with
  | nil =>
    rw [List.nil_append, lookupTotals_cons, lookupTotals_nil]
    by_cases h : q.1 = d <;> simp [h, lookupTotals_nil]
  | cons p acc ih =>
    simp only [List.cons_append]
    rw [lookupTotals_cons, lookupTotals_cons]
    by_cases h : p.1 = d <;> simp [h, ih]

/-- One dict update step: the touched day gets the hour added onto its
previous totals (zero when first seen), other days are untouched. -/
theorem lookupTotals_addRow (acc : List (Date × DayTotals)) (row : HourRow)
    (d : Date) :
    lookupTotals (addRowToTotals acc row) d =
      if row.timestamp.date = d
      then some (addHour ((lookupTotals acc d).getD zeroTotals) row)
      else lookupTotals acc d := by
  unfold addRowToTotals
  by_cases hany : acc.any (fun p => p.1 = row.timestamp.date) = true
  · rw [if_pos hany, lookupTotals_map_upd]
    by_cases hd : row.timestamp.date = d
    · rw [if_pos hd, if_pos hd]
      have hsome : (lookupTotals acc d).isSome := by
        rw [← hd, ← any_eq_lookup_isSome]
        exact hany
      obtain ⟨t, ht⟩ := Option.isSome_iff_exists.mp hsome
      rw [ht]
      rfl
    · rw [if_neg hd, if_neg hd]
  · rw [if_neg hany, lookupTotals_append_single]
    have hnone : lookupTotals acc row.timestamp.date = none := by
      rw [← Option.not_isSome_iff_eq_none, ← any_eq_lookup_isSome]
      simpa using hany
    by_cases hd : row.timestamp.date = d
    · subst hd
      rw [hnone]
      simp
    · rw [if_neg hd]
      simp [hd]

/-- Folding further rows onto a dict in which a day is already present
adds exactly the matching rows onto its totals. -/
theorem lookupTotals_foldl_some (data : List HourRow) :
    ∀ (acc : List (Date × DayTotals)) (d : Date) (t : DayTotals),
      lookupTotals acc d = some t →
      lookupTotals (List.foldl addRowToTotals acc data) d =
        some (List.foldl addHour t (data.filter (fun r => r.timestamp.date = d))) := by
  induction data with
  | nil => intro acc d t h; simpa using h
  | cons r data ih =>
    intro acc d t h
    simp only [List.foldl_cons]
    by_cases hd : r.timestamp.date = d
    · have h2 : lookupTotals (addRowToTotals acc r) d = some (addHour t r) := by
        rw [lookupTotals_addRow, if_pos hd, h]
        rfl
      rw [ih _ d _ h2, List.filter_cons_of_pos (by simp [hd])]
      rfl
    · have h2 : lookupTotals (addRowToTotals acc r) d = some t := by
        rw [lookupTotals_addRow, if_neg hd]
        exact h
      rw [ih _ d t h2, List.filter_cons_of_neg (by simp [hd])]

/-- Folding rows onto a dict in which a day is absent produces an entry
for it exactly when a matching row occurs, holding the accumulated
matching rows. -/
theorem lookupTotals_foldl_none (data : List HourRow) :
    ∀ (acc : List (Date × DayTotals)) (d : Date),
      lookupTotals acc d = none →
      lookupTotals (List.foldl addRowToTotals acc data) d =
        if (data.filter (fun r => r.timestamp.date = d)).isEmpty then none
        else some (List.foldl addHour zeroTotals
          (data.filter (fun r => r.timestamp.date = d))) := by
  induction data with
  | nil => intro acc d h; simpa using h
  | cons r data ih =>
    intro acc d h
    simp only [List.foldl_cons]
    by_cases hd : r.timestamp.date = d
    · have h2 : lookupTotals (addRowToTotals acc r) d = some (addHour zeroTotals r) := by
        rw [lookupTotals_addRow, if_pos hd, h]
        rfl
      rw [lookupTotals_foldl_some data _ d _ h2,
        List.filter_cons_of_pos (by simp [hd])]
      simp only [List.isEmpty_cons, Bool.false_eq_true, if_false]
      rfl
    · have h2 : lookupTotals (addRowToTotals acc r) d = none := by
        rw [lookupTotals_addRow, if_neg hd]
        exact h
      rw [ih _ d h2, List.filter_cons_of_neg (by simp [hd])]

/-- Each channel of a fold of addHour is the starting channel plus the
sum of that channel over the rows. -/
theorem foldl_addHour_channels (rows : List HourRow) :
    ∀ t : DayTotals,
      (List.foldl addHour t rows).consumption_v1 =
        t.consumption_v1 + (rows.map (fun r => r.consumption_v1)).sum ∧
      (List.foldl addHour t rows).consumption_v2 =
        t.consumption_v2 + (rows.map (fun r => r.consumption_v2)).sum ∧
      (List.foldl addHour t rows).consumption_v3 =
        t.consumption_v3 + (rows.map (fun r => r.consumption_v3)).sum ∧
      (List.foldl addHour t rows).production_v1 =
        t.production_v1 + (rows.map (fun r => r.production_v1)).sum ∧
      (List.foldl addHour t rows).production_v2 =
        t.production_v2 + (rows.map (fun r => r.production_v2)).sum ∧
      (List.foldl addHour t rows).production_v3 =
        t.production_v3 + (rows.map (fun r => r.production_v3)).sum := by
  induction rows with
  | nil => intro t; simp
  | cons r rows ih =>
    intro t
    obtain ⟨h1, h2, h3, h4, h5, h6⟩ := ih (addHour t r)
    simp only [List.foldl_cons, List.map_cons, List.sum_cons]
    refine ⟨?_, ?_, ?_, ?_, ?_, ?_⟩
    · rw [h1]; simp [addHour, add_assoc]
    · rw [h2]; simp [addHour, add_assoc]
    · rw [h3]; simp [addHour, add_assoc]
    · rw [h4]; simp [addHour, add_assoc]
    · rw [h5]; simp [addHour, add_assoc]
    · rw [h6]; simp [addHour, add_assoc]

/-- A day occurs among the row dates exactly when the filtered row list
for it is non-empty. -/
theorem mem_day_iff_filter_ne (data : List HourRow) (d : Date) :
    d ∈ data.map (fun r => r.timestamp.date) ↔
      (data.filter (fun r => r.timestamp.date = d)).isEmpty = false := by
  induction data with
  | nil => simp
  | cons r data ih =>
    by_cases h : r.timestamp.date = d
    · simp [h, List.filter_cons_of_pos, List.isEmpty_cons]
    · rw [List.filter_cons_of_neg (by simp [h])]
      have h2 : ¬d = r.timestamp.date := fun he => h he.symm
      simp [h2, ih]

/-- C3: the daily-totals mapping of TaskD (and the identical one of
TaskE) holds exactly the calendar days occurring in the input, and the
entry of each day carries, in each of the six channels, the sum of that
channel over exactly the rows whose timestamp falls on that day. -/
theorem C3_daily_totals (data : List HourRow) (d : Date) :
    ((lookupTotals (calculate_daily_totals data) d).isSome ↔
      d ∈ data.map (fun r => r.timestamp.date)) ∧
    (∀ t, lookupTotals (calculate_daily_totals data) d = some t →
      t.consumption_v1 =
        ((data.filter (fun r => r.timestamp.date = d)).map
          (fun r => r.consumption_v1)).sum ∧
      t.consumption_v2 =
        ((data.filter (fun r => r.timestamp.date = d)).map
          (fun r => r.consumption_v2)).sum ∧
      t.consumption_v3 =
        ((data.filter (fun r => r.timestamp.date = d)).map
          (fun r => r.consumption_v3)).sum ∧
      t.production_v1 =
        ((data.filter (fun r => r.timestamp.date = d)).map
          (fun r => r.production_v1)).sum ∧
      t.production_v2 =
        ((data.filter (fun r => r.timestamp.date = d)).map
          (fun r => r.production_v2)).sum ∧
      t.production_v3 =
        ((data.filter (fun r => r.timestamp.date = d)).map
          (fun r => r.production_v3)).sum) ∧
    summarize_week data = calculate_daily_totals data := by
  have hmain := lookupTotals_foldl_none data [] d rfl
  rw [show List.foldl addRowToTotals [] data = calculate_daily_totals data from rfl]
    at hmain
  refine ⟨?_, ?_, rfl⟩
  · rw [hmain, mem_day_iff_filter_ne]
    cases hf : (data.filter (fun r => r.timestamp.date = d)).isEmpty <;> simp [hf]
  · intro t ht
    rw [hmain] at ht
    by_cases hf : (data.filter (fun r => r.timestamp.date = d)).isEmpty
    · rw [if_pos hf] at ht
      exact absurd ht (by simp)
    · rw [if_neg hf] at ht
      have hteq := Option.some.inj ht
      obtain ⟨h1, h2, h3, h4, h5, h6⟩ :=
        foldl_addHour_channels (data.filter (fun r => r.timestamp.date = d)) zeroTotals
      rw [← hteq]
      refine ⟨?_, ?_, ?_, ?_, ?_, ?_⟩
      · rw [h1]; simp [zeroTotals]
      · rw [h2]; simp [zeroTotals]
      · rw [h3]; simp [zeroTotals]
      · rw [h4]; simp [zeroTotals]
      · rw [h5]; simp [zeroTotals]
      · rw [h6]; simp [zeroTotals]

/-- Witness for C3 at a concrete one-row input. -/
theorem C3_daily_totals_witness :
    lookupTotals (calculate_daily_totals [rowGood]) ⟨2025, 10, 13⟩ =
      some ⟨1, 2, 3, 4, 5, 6⟩ ∧
    (⟨1, 2, 3, 4, 5, 6⟩ : DayTotals).consumption_v1 =
      (([rowGood].filter (fun r => r.timestamp.date = ⟨2025, 10, 13⟩)).map
        (fun r => r.consumption_v1)).sum :=
  ⟨by decide,
   ((C3_daily_totals [rowGood] ⟨2025, 10, 13⟩).2.1 ⟨1, 2, 3, 4, 5, 6⟩ (by decide)).1⟩

/-- One dict step either leaves the key list unchanged (day already
present) or appends the new day at the end. -/
theorem totalsKeys_addRow (acc : List (Date × DayTotals)) (row : HourRow) :
    totalsKeys (addRowToTotals acc row) =
      if row.timestamp.date ∈ totalsKeys acc then totalsKeys acc
      else totalsKeys acc ++ [row.timestamp.date] := by
  unfold addRowToTotals totalsKeys
  by_cases hany : acc.any (fun p => p.1 = row.timestamp.date) = true
  · have hmem : row.timestamp.date ∈ acc.map Prod.fst := by
      obtain ⟨p, hp, hpd⟩ := List.any_eq_true.mp hany
      exact List.mem_map.mpr ⟨p, hp, of_decide_eq_true hpd⟩
    rw [if_pos hany, if_pos hmem, List.map_map]
    apply List.map_congr_left
    intro p hp
    by_cases h : p.1 = row.timestamp.date <;> simp [h]
  · have hmem : row.timestamp.date ∉ acc.map Prod.fst := by
      intro hmem
      obtain ⟨p, hp, hpd⟩ := List.mem_map.mp hmem
      exact hany (List.any_eq_true.mpr ⟨p, hp, decide_eq_true hpd⟩)
    rw [if_neg hany, if_neg hmem]
    simp

/-- The key list of the dict built by the fold has no duplicate days. -/
theorem totalsKeys_nodup (data : List HourRow) :
    ∀ acc : List (Date × DayTotals), (totalsKeys acc).Nodup →
      (totalsKeys (List.foldl addRowToTotals acc data)).Nodup := by
  induction data with
  | nil => intro acc h; simpa using h
  | cons r data ih =>
    intro acc h
    simp only [List.foldl_cons]
    apply ih
    rw [totalsKeys_addRow]
    by_cases hmem : r.timestamp.date ∈ totalsKeys acc
    · rw [if_pos hmem]; exact h
    · rw [if_neg hmem]
      simp [List.nodup_append, h, hmem]

/-- The dict keys are exactly the days occurring among the rows. -/
theorem totalsKeys_mem (data : List HourRow) (d : Date) :
    d ∈ totalsKeys (calculate_daily_totals data) ↔
      d ∈ data.map (fun r => r.timestamp.date) := by
  have h1 : (lookupTotals (calculate_daily_totals data) d).isSome ↔
      d ∈ totalsKeys (calculate_daily_totals data) := by
    unfold lookupTotals totalsKeys
    rw [Option.isSome_map', List.find?_isSome]
    simp only [List.mem_map, decide_eq_true_eq]
  rw [← h1]
  have hmain := lookupTotals_foldl_none data [] d rfl
  rw [show List.foldl addRowToTotals [] data = calculate_daily_totals data from rfl]
    at hmain
  rw [hmain, mem_day_iff_filter_ne]
  cases hf : (data.filter (fun r => r.timestamp.date = d)).isEmpty <;> simp [hf]

/-- C9: the day rows of the TaskD report appear in ascending date order,
they are exactly the days present in the input, the report day order is
invariant under any permutation of the input rows, and the TaskE report
uses the same day order. -/
theorem C9_report_days_sorted (data : List HourRow) :
    List.Pairwise (fun a b => dateLE a b = true) (report_days_taskD data) ∧
    (∀ d, d ∈ report_days_taskD data ↔
      d ∈ data.map (fun r => r.timestamp.date)) ∧
    (∀ data2, data.Perm data2 → report_days_taskD data = report_days_taskD data2) ∧
    report_days_taskE data = report_days_taskD data := by
  have htrans : ∀ a b c : Date, dateLE a b = true → dateLE b c = true →
      dateLE a c = true := by
    intro a b c hab hbc
    simp only [dateLE, decide_eq_true_eq] at hab hbc ⊢
    omega
  have htotal : ∀ a b : Date, (dateLE a b || dateLE b a) = true := by
    intro a b
    simp only [dateLE, Bool.or_eq_true, decide_eq_true_eq]
    omega
  have hanti : ∀ a b : Date, dateLE a b = true → dateLE b a = true → a = b := by
    intro a b hab hba
    simp only [dateLE, decide_eq_true_eq] at hab hba
    cases a
    cases b
    simp only [Date.mk.injEq]
    simp only at hab hba
    omega
  have hsorted : ∀ l : List Date,
      List.Pairwise (fun a b => dateLE a b = true) (l.mergeSort dateLE) :=
    fun l => List.sorted_mergeSort htrans htotal l
  refine ⟨hsorted _, ?_, ?_, rfl⟩
  · intro d
    exact ((List.mergeSort_perm _ dateLE).mem_iff).trans (totalsKeys_mem data d)
  · intro data2 hp
    have hn1 : (totalsKeys (calculate_daily_totals data)).Nodup :=
      totalsKeys_nodup data [] (by simp [totalsKeys])
    have hn2 : (totalsKeys (calculate_daily_totals data2)).Nodup :=
      totalsKeys_nodup data2 [] (by simp [totalsKeys])
    have hmemiff : ∀ x, x ∈ totalsKeys (calculate_daily_totals data) ↔
        x ∈ totalsKeys (calculate_daily_totals data2) := by
      intro x
      rw [totalsKeys_mem, totalsKeys_mem]
      exact (hp.map (fun r => r.timestamp.date)).mem_iff
    have hkperm := (List.perm_ext_iff_of_nodup hn1 hn2).mpr hmemiff
    have hperm : (report_days_taskD data).Perm (report_days_taskD data2) :=
      ((List.mergeSort_perm _ dateLE).trans hkperm).trans
        (List.mergeSort_perm _ dateLE).symm
    haveI : IsAntisymm Date (fun a b => dateLE a b = true) := ⟨hanti⟩
    exact List.eq_of_perm_of_sorted hperm (hsorted _) (hsorted _)

/-- Witness for C9: swapping two rows of a concrete input leaves the
sorted report days unchanged. -/
theorem C9_report_days_sorted_witness :
    report_days_taskD [rowGood, rowGood2] = report_days_taskD [rowGood2, rowGood] :=
  (C9_report_days_sorted [rowGood, rowGood2]).2.2.1 [rowGood2, rowGood]
    (List.Perm.swap rowGood2 rowGood [])

/-- C6: in both CSV readers a data line splitting into fewer than seven
columns is silently skipped, contributing neither a record nor an
error, while a line with at least seven columns whose timestamp and
integer fields parse contributes exactly one record in place. -/
theorem C6_reader_row_handling (line : String) (rest : List String) :
    ((pySplit (pyStrip line) ';').length < 7 →
      taskD_read_data (line :: rest) = taskD_read_data rest) ∧
    ((pySplit line ';').length < 7 →
      taskE_read_data (line :: rest) = taskE_read_data rest) ∧
    (∀ row, 7 ≤ (pySplit (pyStrip line) ';').length →
      parse_hour_row (pySplit (pyStrip line) ';') = some row →
      taskD_read_data (line :: rest) =
        (taskD_read_data rest).map (fun tail => row :: tail)) ∧
    (∀ row, 7 ≤ (pySplit line ';').length →
      parse_hour_row (pySplit line ';') = some row →
      taskE_read_data (line :: rest) =
        (taskE_read_data rest).map (fun tail => row :: tail)) := by
  refine ⟨?_, ?_, ?_, ?_⟩
  · intro h
    simp only [taskD_read_data]
    rw [if_neg (by omega)]
  · intro h
    simp only [taskE_read_data]
    rw [if_neg (by omega)]
  · intro row h7 hrow
    simp only [taskD_read_data]
    rw [if_pos h7, hrow]
    cases hrec : taskD_read_data rest <;> simp [hrec, Option.bind]
  · intro row h7 hrow
    simp only [taskE_read_data]
    rw [if_pos h7, hrow]
    cases hrec : taskE_read_data rest <;> simp [hrec, Option.bind]

/-- Witness for C6 on concrete short and well-formed lines. -/
theorem C6_reader_row_handling_witness :
    taskD_read_data [lineShort] = some [] ∧
    taskD_read_data [lineGood] = some [rowGood] := by
  constructor
  · exact ((C6_reader_row_handling lineShort []).1 (by decide)).trans rfl
  · have h := (C6_reader_row_handling lineGood []).2.2.1 rowGood (by decide) (by decide)
    rw [h]
    rfl

/-- C7: the TaskF date prompt only ever returns a date obtained by a
successful dd.mm.yyyy parse of one of the console entries, the month
prompt only ever returns an integer between 1 and 12, and every
invalid entry makes either prompt move on to the next entry (the two
statements asserting a re-prompt are scoped to ASCII entries, on which
the modelled parsers reject exactly what CPython rejects). -/
theorem C7_prompt_validation :
    (∀ (inputs : List String) (d : Date) (rest : List String),
      prompt_date inputs = some (d, rest) →
      ∃ raw ∈ inputs, parse_ddmmyyyy (pyStrip raw) = some d) ∧
    (∀ (inputs : List String) (m : Int) (rest : List String),
      prompt_month inputs = some (m, rest) → 1 ≤ m ∧ m ≤ 12) ∧
    (∀ (raw : String) (rest : List String), asciiOnly raw = true →
      parse_ddmmyyyy (pyStrip raw) = none →
      prompt_date (raw :: rest) = prompt_date rest) ∧
    (∀ (raw : String) (rest : List String) (m : Int),
      pyInt (pyStrip raw) = some m → ¬(1 ≤ m ∧ m ≤ 12) →
      prompt_month (raw :: rest) = prompt_month rest) ∧
    (∀ (raw : String) (rest : List String), asciiOnly raw = true →
      pyInt (pyStrip raw) = none →
      prompt_month (raw :: rest) = prompt_month rest) := by
  refine ⟨?_, ?_, ?_, ?_, ?_⟩
  · intro inputs
    induction inputs with
    | nil => intro d rest h; simp [prompt_date] at h
    | cons raw rest0 ih =>
      intro d rest h
      simp only [prompt_date] at h
      cases hp : parse_ddmmyyyy (pyStrip raw) with
      | some d0 =>
        rw [hp] at h
        simp only [Option.some.injEq, Prod.mk.injEq] at h
        exact ⟨raw, List.mem_cons_self raw rest0, by rw [hp, h.1]⟩
      | none =>
        rw [hp] at h
        obtain ⟨raw2, hmem, hp2⟩ := ih d rest h
        exact ⟨raw2, List.mem_cons_of_mem _ hmem, hp2⟩
  · intro inputs
    induction inputs with
    | nil => intro m rest h; simp [prompt_month] at h
    | cons raw rest0 ih =>
      intro m rest h
      simp only [prompt_month] at h
      cases hp : pyInt (pyStrip raw) with
      | none =>
        rw [hp] at h
        exact ih m rest h
      | some m0 =>
        simp only [hp] at h
        by_cases hr : 1 ≤ m0 ∧ m0 ≤ 12
        · rw [if_pos hr] at h
          simp only [Option.some.injEq, Prod.mk.injEq] at h
          rw [← h.1]
          exact hr
        · rw [if_neg hr] at h
          exact ih m rest h
  · intro raw rest _ h
    simp only [prompt_date]
    rw [h]
  · intro raw rest m hm hnot
    simp only [prompt_month, hm]
    rw [if_neg hnot]
  · intro raw rest _ h
    simp only [prompt_month]
    rw [h]

/-- Witness for C7: the month prompt skips an out-of-range entry and an
unparsable entry, returns the in-range value 7 with its validity, and
the skip of the unparsable ASCII entry follows from the theorem. -/
theorem C7_prompt_validation_witness :
    prompt_month ["13", "x", "7"] = some (7, []) ∧ (1 ≤ (7 : ℤ) ∧ (7 : ℤ) ≤ 12) ∧
    prompt_month ["x", "7"] = prompt_month ["7"] :=
  ⟨by decide, C7_prompt_validation.2.1 ["13", "x", "7"] 7 [] (by decide),
   C7_prompt_validation.2.2.2.2 "x" ["7"] (by decide) (by decide)⟩
